/-
Verification of the bash compatibility test runner
(`scripts/bash-test-runner.py`).

This file gives a shallow embedding of the runner's data model and of the
functions the verified properties concern:

* `TestResult` / `SuiteResult`           — the result dataclasses;
* `findRunMatches` / `getSuiteTests`     — suite-definition parsing
  (the regex `(?:sh\s+run-([\w-]+)|run-([\w-]+)[|)])` and the first-seen
  de-duplication loop of `BashTestRunner.get_suite_tests`);
* `listTests` / `resolveTests`           — on-disk test discovery and the
  `all` sentinel handling of `_run_suite_sequential` / `_run_suite_parallel`;
* `runSingleTest`                        — `BashTestRunner.run_single_test`
  over an explicit world describing the filesystem, the environment, and the
  outcome of the spawned subprocess; Python exceptions are modelled with
  `Except`, and the `try`/`except` block of the source is reflected in which
  failure sources are converted to an `error`-status result and which
  propagate;
* `runSuiteSequential` / `runSuiteParallel` — the two schedulers, with the
  parallel completion order made explicit and the `results.sort(key=...)`
  call modelled by a comparison sort on the same key;
* `progressBar` / `seqStatusLine` / `colorize` — the progress rendering,
  with the global `Colors.enabled()` flag lifted to a parameter;
* `passRateExpr` / `progressFractionExpr` — the guarded percentage
  computations of `print_summary`, `main` and `progress_bar`, with Python
  float division modelled over `ℚ` and `ZeroDivisionError` made explicit.

Machine reals (Python floats) are modelled as rationals; file reads that the
source performs inside its `try` block are modelled as total since their
failure is subsumed by the modelled in-`try` exception source.
-/
import Mathlib

namespace BashTestRunner

/-! ## Small string / numeric utilities -/

/-- One decimal digit as a character (`'0'`–`'9'`). -/
def digitChar (n : Nat) : Char :=
  match n % 10 with
  | 0 => '0' | 1 => '1' | 2 => '2' | 3 => '3' | 4 => '4'
  | 5 => '5' | 6 => '6' | 7 => '7' | 8 => '8' | _ => '9'

/-- Decimal digits of `n`, most significant first; `fuel` bounds recursion. -/
def natToStrAux : Nat → Nat → List Char
  | 0, _ => []
  | fuel + 1, n =>
    if n < 10 then [digitChar n]
    else natToStrAux fuel (n / 10) ++ [digitChar (n % 10)]

/-- Decimal rendering of a natural number, as Python's `str`/f-strings do. -/
def natToStr (n : Nat) : String := String.mk (natToStrAux (n + 1) n)

/-- `needle` occurs as a contiguous run inside `hay` (Python's `in` on `str`). -/
def listContainsSub (needle : List Char) : List Char → Bool
  | [] => needle.isEmpty
  | c :: rest => needle.isPrefixOf (c :: rest) || listContainsSub needle rest

/-- Python's substring test `needle in hay`. -/
def strContainsSub (hay needle : String) : Bool :=
  listContainsSub needle.data hay.data

/-- Python's `f"{s:<25}"`-style left justification to width `n`. -/
def padRight (s : String) (n : Nat) : String :=
  s ++ String.mk (List.replicate (n - s.length) ' ')

/-! ## Result data model (`TestResult`, `SuiteResult` dataclasses) -/

/-- `TestResult` dataclass: status is the string tag used by the source,
one of `"pass"`, `"fail"`, `"timeout"`, `"error"`. -/
structure TestResult where
  name : String
  status : String
  duration : ℚ
  output : String
  error : String
deriving DecidableEq

/-- `SuiteResult` dataclass. -/
structure SuiteResult where
  suite_name : String
  total : Nat
  passed : Nat
  failed : Nat
  timeout : Nat
  error : Nat
  duration : ℚ
  tests : List TestResult
deriving DecidableEq

/-- Aggregation performed at the end of `_run_suite_sequential` and
`_run_suite_parallel`: counts are the number of results bearing each tag. -/
def mkSuiteResult (suiteName : String) (dur : ℚ) (results : List TestResult) :
    SuiteResult :=
  SuiteResult.mk suiteName results.length
    (results.countP (fun r => r.status == "pass"))
    (results.countP (fun r => r.status == "fail"))
    (results.countP (fun r => r.status == "timeout"))
    (results.countP (fun r => r.status == "error"))
    dur results

/-! ## Suite-definition parsing (`get_suite_tests`)

The source scans the suite script's text with
`re.finditer(r'(?:sh\s+run-([\w-]+)|run-([\w-]+)[|)])', content)`.
Both alternatives are backtracking-free for this pattern (the character
classes of adjacent pieces are disjoint), so the scan below, which takes the
maximal run at each greedy position, computes exactly the Python matches. -/

/-- Python's `\s` over the ASCII range. -/
def isPySpace (c : Char) : Bool :=
  c = ' ' || c = '\t' || c = '\n' || c = '\r' || c = '\x0b' || c = '\x0c'

/-- The character class `[\w-]` over the ASCII range. -/
def isWordHyphen (c : Char) : Bool :=
  c.isAlpha || c.isDigit || c = '_' || c = '-'

/-- First alternative `sh\s+run-([\w-]+)`: returns the captured name and the
remainder of the input after the match, if it matches at the head. -/
def matchShRun : List Char → Option (String × List Char)
  | 's' :: 'h' :: rest =>
    let sp := rest.takeWhile isPySpace
    let rest1 := rest.dropWhile isPySpace
    if sp.isEmpty then none
    else
      match rest1 with
      | 'r' :: 'u' :: 'n' :: '-' :: rest2 =>
        let w := rest2.takeWhile isWordHyphen
        let rest3 := rest2.dropWhile isWordHyphen
        if w.isEmpty then none else some (String.mk w, rest3)
      | _ => none
  | _ => none

/-- Second alternative `run-([\w-]+)[|)]`: the name must be followed by `|`
or `)`, which is consumed by the match. -/
def matchRunDelim : List Char → Option (String × List Char)
  | 'r' :: 'u' :: 'n' :: '-' :: rest =>
    let w := rest.takeWhile isWordHyphen
    let rest2 := rest.dropWhile isWordHyphen
    if w.isEmpty then none
    else
      match rest2 with
      | c :: rest3 => if c = '|' || c = ')' then some (String.mk w, rest3) else none
      | [] => none
  | _ => none

/-- `re.finditer` scan: at each position try the first alternative, then the
second, else advance one character; after a match continue after its end.
`fuel` bounds the recursion; every step consumes at least one character, so
`fuel = length` suffices. -/
def findRunMatchesAux : Nat → List Char → List String
  | 0, _ => []
  | _ + 1, [] => []
  | fuel + 1, c :: rest =>
    match matchShRun (c :: rest) with
    | some (name, rest') => name :: findRunMatchesAux fuel rest'
    | none =>
      match matchRunDelim (c :: rest) with
      | some (name, rest') => name :: findRunMatchesAux fuel rest'
      | none => findRunMatchesAux fuel rest

/-- All sub-suite names referenced by a suite script, in match order. -/
def findRunMatches (content : String) : List String :=
  findRunMatchesAux content.data.length content.data

/-- The filter applied to each matched name in `get_suite_tests`:
`test_name and test_name != suite_name and test_name not in ['all', 'minimal']`. -/
def keepName (suiteName t : String) : Bool :=
  (t != "") && (t != suiteName) && (t != "all") && (t != "minimal")

/-- One iteration of the collection loop of `get_suite_tests`: append `t`
unless it is filtered out or already seen (`seen` is the set of elements of
`acc`, since every appended element is also added to `seen`). -/
def dedupAppend (suiteName : String) (acc : List String) (t : String) :
    List String :=
  if keepName suiteName t && !(acc.contains t) then acc ++ [t] else acc

/-- `BashTestRunner.get_suite_tests`, as a function of the suite name and the
suite script's text (the source raises `ValueError` when the script is
absent; existence is handled by the caller model). -/
def getSuiteTests (suiteName content : String) : List String :=
  if (findRunMatches content).isEmpty then [suiteName]
  else (findRunMatches content).foldl (dedupAppend suiteName) []

/-- Modelled from the spec: "the ordered, first-seen-deduplicated set of
referenced names" — keeps the first occurrence of every name, dropping later
duplicates. Stated separately from the source's fold so the two can be
compared. `fuel` bounds recursion; `fuel = length` suffices. -/
def specFirstSeenDedupAux : Nat → List String → List String
  | 0, _ => []
  | _ + 1, [] => []
  | fuel + 1, t :: rest =>
    t :: specFirstSeenDedupAux fuel (rest.filter (fun x => x != t))

/-- First-seen de-duplication, the spec-side description of the loop. -/
def specFirstSeenDedup (l : List String) : List String :=
  specFirstSeenDedupAux l.length l

/-! ## Test discovery (`list_tests`) and suite resolution -/

/-- `Path.stem` for a filename that matched the glob `*.tests`: drop the
6-character suffix `.tests` (the final dot of such a name starts that
suffix, so this agrees with `Path.stem`). -/
def stemOfTests (f : String) : String := f.dropRight 6

/-- `BashTestRunner.list_tests` over the list of filenames present in the
tests directory: stems of `*.tests` entries, de-duplicated (the source
collects them into a `set`) and sorted. -/
def listTests (files : List String) : List String :=
  List.insertionSort (fun a b => a ≤ b)
    (((files.filter (fun f => f.endsWith ".tests")).map stemOfTests).dedup)

/-- Test resolution shared by `_run_suite_sequential` (lines 333–336) and
`_run_suite_parallel` (lines 428–431): the sentinel `all` lists the disk,
anything else parses the suite definition. -/
def resolveTests (suiteName : String) (files : List String) (content : String) :
    List String :=
  if suiteName = "all" then listTests files else getSuiteTests suiteName content

/-- `tests = [t for t in tests if test_filter in t]`. -/
def applyFilter (filt : Option String) (tests : List String) : List String :=
  match filt with
  | none => tests
  | some f => tests.filter (fun t => strContainsSub t f)

/-! ## Single-test execution (`run_single_test`)

The world record fixes everything `run_single_test` observes: whether the
scratch directory can be created, whether `PATH` is present in the process
environment (`get_base_env` evaluates `env['PATH']`, which raises `KeyError`
when absent — and it does so *before* the `try` block), which on-disk
artifacts exist, and how the spawned subprocess behaves.  Python exceptions
are the `Except.error` branch of the result; `Except.ok` is the returned
`TestResult`. -/

/-- Outcome of the `subprocess.run` call for the test command. -/
inductive ExecOutcome where
  | completed (returncode : Int) (stdout : String) (stderr : String)
  | timedOut
  | raised (msg : String)
deriving DecidableEq

/-- Outcome of the `diff -u` subprocess (it is given no timeout): either its
standard output, or an exception it raised (e.g. a missing `diff` binary). -/
inductive DiffOutcome where
  | produced (stdout : String)
  | raised (msg : String)
deriving DecidableEq

/-- Everything `run_single_test` observes about its environment. -/
structure RunWorld where
  /-- `tempfile.TemporaryDirectory()` succeeds (it is entered before `try`). -/
  tempDirOk : Bool
  /-- `PATH` is present in `os.environ` (consulted by `get_base_env`). -/
  pathVarSet : Bool
  /-- `run-<name>` exists in the tests directory. -/
  runScriptExists : Bool
  /-- `run-<name minus "-tests">` exists (alias consulted only when the
  test name ends in `-tests` and `run-<name>` is absent). -/
  altRunScriptExists : Bool
  /-- `<name>.tests` exists. -/
  testsFileExists : Bool
  /-- `<name>.right` exists. -/
  rightFileExists : Bool
  /-- Behaviour of the spawned test process. -/
  exec : ExecOutcome
  /-- Content of the scratch `test.out` file, when the test wrote it. -/
  tstoutWritten : Option String
  /-- Content of the `<name>.right` expected-output artifact. -/
  rightContent : String
  /-- The `diff -u` subprocess: its stdout, or the exception it raised. -/
  diffOut : DiffOutcome
  /-- Wall-clock duration recorded into the result. -/
  elapsed : ℚ
deriving DecidableEq

/-- The run-script protocol is selected: `run-<name>` exists, or the
`-tests` alias rule of lines 188–192 finds an alternative script. -/
def selectsRunScript (w : RunWorld) (testName : String) : Bool :=
  w.runScriptExists || (testName.endsWith "-tests" && w.altRunScriptExists)

/-- Exit-code classification shared by the run-script protocol and the
golden-file fallback when no `.right` artifact exists. -/
def classifyExitCode (w : RunWorld) (testName : String) (rc : Int)
    (out err : String) : TestResult :=
  if rc = 0 then TestResult.mk testName "pass" w.elapsed (out ++ err) ""
  else TestResult.mk testName "fail" w.elapsed out err

/-- The "Read actual output" step of the golden-file protocol: the scratch
file's content if the test wrote it, else combined stdout+stderr. -/
def actualOutput (w : RunWorld) (out err : String) : String :=
  match w.tstoutWritten with
  | some c => c
  | none => out ++ err

/-- `BashTestRunner.run_single_test`.  `Except.error` is an exception
propagating past the function's boundary. -/
def runSingleTest (w : RunWorld) (tmo : Nat) (testName : String) :
    Except String TestResult :=
  if w.tempDirOk = false then
    Except.error "OSError: could not create temporary directory"
  else if w.pathVarSet = false then
    Except.error "KeyError: PATH"
  else if selectsRunScript w testName then
    -- run-* scripts do their own diff; classification is by exit code,
    -- inside the try block.
    match w.exec with
    | ExecOutcome.completed rc out err =>
      Except.ok (classifyExitCode w testName rc out err)
    | ExecOutcome.timedOut =>
      Except.ok (TestResult.mk testName "timeout" w.elapsed ""
        ("Test exceeded timeout of " ++ natToStr tmo ++ "s"))
    | ExecOutcome.raised m =>
      Except.ok (TestResult.mk testName "error" w.elapsed "" m)
  else if w.testsFileExists then
    match w.exec with
    | ExecOutcome.timedOut =>
      Except.ok (TestResult.mk testName "timeout" w.elapsed ""
        ("Test exceeded timeout of " ++ natToStr tmo ++ "s"))
    | ExecOutcome.raised m =>
      Except.ok (TestResult.mk testName "error" w.elapsed "" m)
    | ExecOutcome.completed rc out err =>
      if w.rightFileExists then
        let actual := actualOutput w out err
        if actual = w.rightContent then
          Except.ok (TestResult.mk testName "pass" w.elapsed actual "")
        else
          match w.diffOut with
          | DiffOutcome.produced d =>
            Except.ok (TestResult.mk testName "fail" w.elapsed actual d)
          | DiffOutcome.raised m =>
            Except.ok (TestResult.mk testName "error" w.elapsed "" m)
      else
        Except.ok (classifyExitCode w testName rc out err)
  else
    Except.ok (TestResult.mk testName "error" w.elapsed ""
      ("Neither run-" ++ testName ++ " nor " ++ testName ++ ".tests found"))

/-! ## Schedulers (`run_suite`, `_run_suite_sequential`, `_run_suite_parallel`)

Per-test execution is a deterministic function `runTest` of the test name
(each test runs in its own process; the suite-level claims quantify over
that function).  The parallel scheduler additionally takes the order in
which futures complete and, for each name, whether its worker crashed with
an orchestration exception (the `except` branch at lines 488–497). -/

/-- `_run_suite_sequential`: resolve, filter, run in order, aggregate. -/
def runSuiteSequential (suiteName : String) (runTest : String → TestResult)
    (files : List String) (content : String) (filt : Option String) (dur : ℚ) :
    SuiteResult :=
  let tests := applyFilter filt (resolveTests suiteName files content)
  mkSuiteResult suiteName dur (tests.map runTest)

/-- `test_order = {name: idx for idx, name in enumerate(tests)}` followed by
`test_order.get(name, 999)`: a later duplicate overwrites an earlier index,
so the lookup yields the *last* index of `name`, defaulting to 999. -/
def lastIdx : List String → String → Option Nat
  | [], _ => none
  | t :: rest, name =>
    match lastIdx rest name with
    | some j => some (j + 1)
    | none => if t = name then some 0 else none

/-- `test_order.get(r.name, 999)`. -/
def testOrderGet (tests : List String) (name : String) : Nat :=
  (lastIdx tests name).getD 999

/-- Result produced for one completed future: the worker either crashed
(converted to an `error`-status result with zero duration) or delivered the
test's result. -/
def futureResult (runTest : String → TestResult)
    (crashes : String → Option String) (name : String) : TestResult :=
  match crashes name with
  | some m => TestResult.mk name "error" 0 "" m
  | none => runTest name

/-- `_run_suite_parallel`: resolve, filter, collect in completion order,
then `results.sort(key=lambda r: test_order.get(r.name, 999))` before
aggregating.  `completionOrder` lists positions into the resolved list in
the order the corresponding futures complete. -/
def runSuiteParallel (suiteName : String) (runTest : String → TestResult)
    (files : List String) (content : String) (filt : Option String) (dur : ℚ)
    (completionOrder : List Nat) (crashes : String → Option String) :
    SuiteResult :=
  let tests := applyFilter filt (resolveTests suiteName files content)
  let arrived := (completionOrder.filterMap (fun i => tests[i]?)).map
    (futureResult runTest crashes)
  let sorted := List.insertionSort
    (fun a b => testOrderGet tests a.name ≤ testOrderGet tests b.name) arrived
  mkSuiteResult suiteName dur sorted

/-- `run_suite`: dispatch on the job count. -/
def runSuite (suiteName : String) (runTest : String → TestResult)
    (files : List String) (content : String) (filt : Option String) (dur : ℚ)
    (jobs : Nat) (completionOrder : List Nat)
    (crashes : String → Option String) : SuiteResult :=
  if 1 < jobs then
    runSuiteParallel suiteName runTest files content filt dur completionOrder
      crashes
  else runSuiteSequential suiteName runTest files content filt dur

/-! ## Progress rendering (`Colors`, `colorize`, `progress_bar`,
the non-verbose status line of `_run_suite_sequential`)

`Colors.enabled()` (stderr is a tty and `NO_COLOR` is unset) is consulted as
ambient global state in the source; it is lifted to the explicit `enabled`
parameter here. -/

def escChar : Char := '\x1b'

def ansiReset : String := "\x1b[0m"
def ansiBold : String := "\x1b[1m"
def ansiDim : String := "\x1b[2m"
def ansiYellow : String := "\x1b[33m"
def ansiCyan : String := "\x1b[36m"
def ansiBrightGreen : String := "\x1b[92m"
def ansiBrightRed : String := "\x1b[91m"
def ansiBrightCyan : String := "\x1b[96m"

/-- `colorize(text, color)`. -/
def colorize (enabled : Bool) (text color : String) : String :=
  if enabled then color ++ text ++ ansiReset else text

/-- `progress_bar(current, total, width)`; Python float arithmetic over ℚ,
`int(...)` is truncation (= floor on these non-negative values). -/
def progressBar (enabled : Bool) (current total width : Nat) : String :=
  if enabled = false then natToStr current ++ "/" ++ natToStr total
  else
    let fraction : ℚ := if 0 < total then (current : ℚ) / (total : ℚ) else 0
    let filled : Nat := (⌊(width : ℚ) * fraction⌋).toNat
    let empty : Nat := width - filled
    let bar := String.mk (List.replicate filled '█') ++
      String.mk (List.replicate empty '░')
    let percentage : Nat := (⌊fraction * 100⌋).toNat
    let colored :=
      if percentage = 100 then colorize true bar ansiBrightGreen
      else if 50 ≤ percentage then colorize true bar ansiCyan
      else colorize true bar ansiYellow
    colored ++ " " ++ natToStr percentage ++ "%"

/-- The non-verbose progress line printed by `_run_suite_sequential` at
iteration `i` (1-based; `results` is non-empty there exactly when `2 ≤ i`):
`"\r{pbar} "` then optional pass/fail counters then `Running {name:<25}`. -/
def seqStatusLine (enabled : Bool) (i totalTests passedCount failedCount : Nat)
    (testName : String) : String :=
  let pbar := progressBar enabled (i - 1) totalTests 20
  let s1 := "\r" ++ pbar ++ " "
  let s2 :=
    if 2 ≤ i then
      let a :=
        if 0 < passedCount then
          s1 ++ colorize enabled ("✓ " ++ natToStr passedCount) ansiBrightGreen
            ++ " "
        else s1
      if 0 < failedCount then
        a ++ colorize enabled ("✗ " ++ natToStr failedCount) ansiBrightRed ++ " "
      else a
    else s1
  s2 ++ colorize enabled "Running" ansiDim ++ " " ++ padRight testName 25

/-- A string is free of ANSI escape sequences (no ESC character). -/
def NoEsc (s : String) : Prop := escChar ∉ s.data

/-! ## Guarded percentage computations

`print_summary` (line 554), the per-suite and overall rows of `main`
(lines 757, 778) all compute `passed / total * 100 if total > 0 else 0`;
`progress_bar` (line 70) computes `current / total if total > 0 else 0`.
Python float division is modelled over ℚ with `ZeroDivisionError` explicit. -/

/-- Python `a / b`: raises `ZeroDivisionError` on a zero denominator. -/
def pyDivQ (a b : ℚ) : Except String ℚ :=
  if b = 0 then Except.error "ZeroDivisionError: division by zero"
  else Except.ok (a / b)

/-- `passed / total * 100 if total > 0 else 0`. -/
def passRateExpr (passed total : Nat) : Except String ℚ :=
  if 0 < total then (pyDivQ (passed : ℚ) (total : ℚ)).map (fun x => x * 100)
  else Except.ok 0

/-- `fraction = current / total if total > 0 else 0`. -/
def progressFractionExpr (current total : Nat) : Except String ℚ :=
  if 0 < total then pyDivQ (current : ℚ) (total : ℚ)
  else Except.ok 0

/-! ## Spec-side predicates used to state the verified properties -/

/-- The status tag set is closed: one of the four documented tags. -/
def StatusClosed (r : TestResult) : Prop :=
  r.status = "pass" ∨ r.status = "fail" ∨ r.status = "timeout" ∨ r.status = "error"

/-- The count invariants of a `SuiteResult`: `total == len(tests)`,
`total == passed+failed+timeout+error`, and each count is the number of
tests bearing the corresponding tag. -/
def SuiteCountsOk (sr : SuiteResult) : Prop :=
  sr.total = sr.tests.length ∧
  sr.total = sr.passed + sr.failed + sr.timeout + sr.error ∧
  sr.passed = sr.tests.countP (fun r => r.status == "pass") ∧
  sr.failed = sr.tests.countP (fun r => r.status == "fail") ∧
  sr.timeout = sr.tests.countP (fun r => r.status == "timeout") ∧
  sr.error = sr.tests.countP (fun r => r.status == "error")

/-! # Theorems -/

/-- When every element bears one of the four closed tags, the four
per-tag counts partition the list. -/
theorem countP_four_eq_length (l : List TestResult)
    (h : ∀ r ∈ l, StatusClosed r) :
    l.countP (fun r => r.status == "pass") + l.countP (fun r => r.status == "fail") +
      l.countP (fun r => r.status == "timeout") +
      l.countP (fun r => r.status == "error") = l.length := by
  induction l with
  | nil => simp
  | cons a t ih =>
    have ha := h a (List.mem_cons_self a t)
    have iht := ih (fun r hr => h r (List.mem_cons_of_mem a hr))
    simp only [List.countP_cons, List.length_cons]
    rcases ha with h1 | h1 | h1 | h1 <;> rw [h1] <;> simp <;> omega

/-- Every result a completed future contributes has a closed status tag:
a worker crash is converted to `"error"`, a delivered result inherits the
executed test's tag. -/
theorem futureResult_statusClosed (runTest : String → TestResult)
    (crashes : String → Option String) (nm : String)
    (h : StatusClosed (runTest nm)) :
    StatusClosed (futureResult runTest crashes nm) := by
  unfold futureResult
  cases crashes nm with
  | some m => right; right; right; rfl
  | none => exact h

/-- C1.  For every suite run, sequential or parallel, the returned
`SuiteResult` satisfies `total == len(tests)` and
`total == passed + failed + timeout + error`, with each count equal to the
number of tests whose status bears the corresponding tag.  The per-test
executor is any function producing one of the four closed status tags
(which `run_single_test` does, and the parallel worker-crash conversion
preserves). -/
theorem suite_counts_consistent
    (suiteName : String) (runTest : String → TestResult) (files : List String)
    (content : String) (filt : Option String) (dur : ℚ)
    (completionOrder : List Nat) (crashes : String → Option String)
    (hstatus : ∀ nm, StatusClosed (runTest nm)) :
    SuiteCountsOk
      (runSuiteSequential suiteName runTest files content filt dur) ∧
    SuiteCountsOk
      (runSuiteParallel suiteName runTest files content filt dur
        completionOrder crashes) := by
  constructor
  · refine ⟨rfl, ?_, rfl, rfl, rfl, rfl⟩
    have hm : ∀ r ∈ (applyFilter filt
        (resolveTests suiteName files content)).map runTest, StatusClosed r := by
      intro r hr
      rcases List.mem_map.mp hr with ⟨nm, _, rfl⟩
      exact hstatus nm
    exact (countP_four_eq_length _ hm).symm
  · refine ⟨rfl, ?_, rfl, rfl, rfl, rfl⟩
    have hm : ∀ r ∈ List.insertionSort
        (fun a b => testOrderGet (applyFilter filt (resolveTests suiteName files content)) a.name ≤
          testOrderGet (applyFilter filt (resolveTests suiteName files content)) b.name)
        ((completionOrder.filterMap
          (fun i => (applyFilter filt (resolveTests suiteName files content))[i]?)).map
          (futureResult runTest crashes)), StatusClosed r := by
      intro r hr
      have hr2 := (List.perm_insertionSort _ _).subset hr
      rcases List.mem_map.mp hr2 with ⟨nm, _, rfl⟩
      exact futureResult_statusClosed runTest crashes nm (hstatus nm)
    exact (countP_four_eq_length _ hm).symm

/-- C1 witness: the invariants hold at a concrete suite run. -/
theorem suite_counts_consistent_witness :
    SuiteCountsOk
      (runSuiteSequential "all" (fun nm => TestResult.mk nm "pass" 0 "" "")
        ["a.tests", "b.tests"] "" none 0) ∧
    SuiteCountsOk
      (runSuiteParallel "all" (fun nm => TestResult.mk nm "pass" 0 "" "")
        ["a.tests", "b.tests"] "" none 0 [1, 0] (fun _ => none)) :=
  suite_counts_consistent "all" _ ["a.tests", "b.tests"] "" none 0 [1, 0]
    (fun _ => none) (fun _ => Or.inl rfl)

/-- C3 counterexample.  `run_single_test` is claimed never to raise past its
boundary for any environment state, but `get_base_env` evaluates
`os.environ`-derived `env['PATH']` *before* the `try` block: in an
environment without `PATH` the `KeyError` propagates and no `TestResult` is
produced.  Concretely, in a world where everything else is benign but `PATH`
is unset, the call yields an exception, not a result. -/
theorem run_single_test_can_raise :
    (runSingleTest
      (RunWorld.mk true false true false false false
        (ExecOutcome.completed 0 "" "") none "" (DiffOutcome.produced "") 0)
      30 "x").isOk = false := by
  rfl

/-- C3 (amended).  Once setup succeeds — the scratch directory is created
and `PATH` is present so `get_base_env` does not raise — `run_single_test`
returns exactly one `TestResult`; when a protocol is selected, an exception
raised during execution is caught and converted to an `error`-status result
carrying the exception's message, and a timeout is converted to a
`timeout`-status result. -/
theorem run_single_test_total_after_setup (w : RunWorld) (tmo : Nat)
    (nm : String) (h1 : w.tempDirOk = true) (h2 : w.pathVarSet = true) :
    (runSingleTest w tmo nm).isOk = true ∧
    (selectsRunScript w nm = true ∨ w.testsFileExists = true →
      (∀ m, w.exec = ExecOutcome.raised m →
        runSingleTest w tmo nm =
          Except.ok (TestResult.mk nm "error" w.elapsed "" m)) ∧
      (w.exec = ExecOutcome.timedOut →
        runSingleTest w tmo nm =
          Except.ok (TestResult.mk nm "timeout" w.elapsed ""
            ("Test exceeded timeout of " ++ natToStr tmo ++ "s")))) := by
  refine ⟨?_, ?_⟩
  · obtain ⟨td, pv, rse, arse, tfe, rfe, ex, tw, rcn, dout, el⟩ := w
    replace h1 : td = true := h1
    replace h2 : pv = true := h2
    subst h1
    subst h2
    cases ex <;> cases dout <;>
      simp only [runSingleTest, Bool.true_eq_false, if_false] <;>
      (repeat' split) <;> rfl
  · intro hsel
    unfold runSingleTest
    rw [h1, h2]
    simp only [Bool.true_eq_false, if_false]
    have htf : selectsRunScript w nm = false → w.testsFileExists = true := by
      intro hs
      rcases hsel with h | h
      · rw [hs] at h; cases h
      · exact h
    refine ⟨?_, ?_⟩
    · intro m hm
      by_cases hs : selectsRunScript w nm = true
      · rw [hm, if_pos hs]
      · rw [hm, if_neg hs, if_pos (htf (Bool.not_eq_true _ ▸ hs))]
    · intro hm
      by_cases hs : selectsRunScript w nm = true
      · rw [hm, if_pos hs]
      · rw [hm, if_neg hs, if_pos (htf (Bool.not_eq_true _ ▸ hs))]

/-- C3 amended witness: a concrete post-setup world where the subprocess
raises, converted to an `error` result. -/
theorem run_single_test_total_after_setup_witness :
    (runSingleTest
      (RunWorld.mk true true true false false false
        (ExecOutcome.raised "FileNotFoundError") none "" (DiffOutcome.produced "") 0)
      30 "x").isOk = true :=
  (run_single_test_total_after_setup _ 30 "x" rfl rfl).1

/-- C4.  Golden-file protocol with an existing expected-output artifact:
the comparison of actual to expected output is exact string equality.  Equal
contents yield `pass`; differing contents never yield `pass`, and when the
`diff` subprocess delivers its output the result is `fail` with `error` set
to that unified diff. -/
theorem golden_compare_byte_exact (w : RunWorld) (tmo : Nat) (nm : String)
    (rc : Int) (out err : String)
    (h1 : w.tempDirOk = true) (h2 : w.pathVarSet = true)
    (h3 : selectsRunScript w nm = false) (h4 : w.testsFileExists = true)
    (h5 : w.rightFileExists = true)
    (h6 : w.exec = ExecOutcome.completed rc out err) :
    (actualOutput w out err = w.rightContent →
      runSingleTest w tmo nm =
        Except.ok (TestResult.mk nm "pass" w.elapsed (actualOutput w out err) "")) ∧
    (actualOutput w out err ≠ w.rightContent →
      (∀ tr, runSingleTest w tmo nm = Except.ok tr → tr.status ≠ "pass") ∧
      (∀ d, w.diffOut = DiffOutcome.produced d →
        runSingleTest w tmo nm =
          Except.ok (TestResult.mk nm "fail" w.elapsed (actualOutput w out err) d))) := by
  unfold runSingleTest
  rw [h1, h2, h3, h6]
  simp only [Bool.true_eq_false, if_false, Bool.false_eq_true, h4, if_true, h5]
  constructor
  · intro heq
    rw [if_pos heq]
  · intro hne
    constructor
    · intro tr htr
      rw [if_neg hne] at htr
      cases hd : w.diffOut with
      | produced d =>
        rw [hd] at htr
        cases htr
        simp
      | raised m =>
        rw [hd] at htr
        cases htr
        simp
    · intro d hd
      rw [if_neg hne, hd]

/-- C4 witness: a one-character difference at a concrete world yields
`fail` with the diff output; equality yields `pass`. -/
theorem golden_compare_byte_exact_witness :
    runSingleTest
      (RunWorld.mk true true false false true true
        (ExecOutcome.completed 0 "" "") (some "a") "b" (DiffOutcome.produced "-b\n+a") 0)
      30 "x" =
      Except.ok (TestResult.mk "x" "fail" 0 "a" "-b\n+a") :=
  ((golden_compare_byte_exact
    (RunWorld.mk true true false false true true
      (ExecOutcome.completed 0 "" "") (some "a") "b" (DiffOutcome.produced "-b\n+a") 0)
    30 "x" 0 "" "" rfl rfl rfl rfl rfl rfl).2 (by decide)).2 "-b\n+a" rfl

/-- C7.  When neither `run-<name>` (including the `-tests` alias lookup) nor
`<name>.tests` exists, `run_single_test` produces an `error`-status result
with a descriptive message — never `pass`, `fail` or `timeout`. -/
theorem missing_artifacts_yield_error (w : RunWorld) (tmo : Nat) (nm : String)
    (h1 : w.tempDirOk = true) (h2 : w.pathVarSet = true)
    (h3 : selectsRunScript w nm = false) (h4 : w.testsFileExists = false) :
    runSingleTest w tmo nm =
      Except.ok (TestResult.mk nm "error" w.elapsed ""
        ("Neither run-" ++ nm ++ " nor " ++ nm ++ ".tests found")) ∧
    (∀ tr, runSingleTest w tmo nm = Except.ok tr →
      tr.status = "error" ∧ tr.status ≠ "pass" ∧ tr.status ≠ "fail" ∧
        tr.status ≠ "timeout") := by
  -- the main equality, then the status facts read off from it
  have hmain : runSingleTest w tmo nm =
      Except.ok (TestResult.mk nm "error" w.elapsed ""
        ("Neither run-" ++ nm ++ " nor " ++ nm ++ ".tests found")) := by
    unfold runSingleTest
    rw [h1, h2, h3, h4]
    simp
  refine ⟨hmain, ?_⟩
  intro tr htr
  rw [hmain] at htr
  cases htr
  refine ⟨rfl, ?_, ?_, ?_⟩ <;> simp

/-- C7 witness: a concrete world with no artifacts for the name. -/
theorem missing_artifacts_yield_error_witness :
    runSingleTest
      (RunWorld.mk true true false false false false
        (ExecOutcome.completed 0 "" "") none "" (DiffOutcome.produced "") 7)
      30 "ghost" =
      Except.ok (TestResult.mk "ghost" "error" 7 ""
        ("Neither run-" ++ "ghost" ++ " nor " ++ "ghost" ++ ".tests found")) :=
  (missing_artifacts_yield_error
    (RunWorld.mk true true false false false false
      (ExecOutcome.completed 0 "" "") none "" (DiffOutcome.produced "") 7)
    30 "ghost" rfl rfl (by decide) rfl).1

/-- `specFirstSeenDedupAux` does not depend on the fuel, given enough of it. -/
theorem specAux_congr :
    ∀ (f1 f2 : Nat) (l : List String), l.length ≤ f1 → l.length ≤ f2 →
      specFirstSeenDedupAux f1 l = specFirstSeenDedupAux f2 l := by
  intro f1
  induction f1 with
  | zero =>
    intro f2 l h1 _
    have hl : l = [] := List.length_eq_zero.mp (Nat.le_zero.mp h1)
    subst hl
    cases f2 <;> rfl
  | succ a ih =>
    intro f2 l h1 h2
    cases l with
    | nil => cases f2 <;> rfl
    | cons t rest =>
      cases f2 with
      | zero => simp at h2
      | succ b =>
        simp only [specFirstSeenDedupAux, List.cons.injEq, true_and]
        apply ih
        · exact le_trans (List.length_filter_le _ _)
            (Nat.succ_le_succ_iff.mp (by simpa using h1))
        · exact le_trans (List.length_filter_le _ _)
            (Nat.succ_le_succ_iff.mp (by simpa using h2))

/-- Elements of the first-seen de-duplication come from the input list. -/
theorem mem_specAux :
    ∀ (f : Nat) (l : List String) (x : String),
      x ∈ specFirstSeenDedupAux f l → x ∈ l := by
  intro f
  induction f with
  | zero => intro l x h; simp [specFirstSeenDedupAux] at h
  | succ a ih =>
    intro l x h
    cases l with
    | nil => simp [specFirstSeenDedupAux] at h
    | cons t rest =>
      simp only [specFirstSeenDedupAux, List.mem_cons] at h
      rcases h with h | h
      · exact h ▸ List.mem_cons_self t rest
      · exact List.mem_cons_of_mem t (List.mem_of_mem_filter (ih _ x h))

/-- The collection loop of `get_suite_tests` computes a first-seen
de-duplication of the filtered match list, appended to the accumulator. -/
theorem foldl_dedupAppend_eq (s : String) :
    ∀ (fuel : Nat) (ms acc : List String), ms.length ≤ fuel →
      ms.foldl (dedupAppend s) acc =
        acc ++ specFirstSeenDedupAux fuel
          (ms.filter (fun t => keepName s t && !(acc.contains t))) := by
  intro fuel
  induction fuel with
  | zero =>
    intro ms acc h
    have hl : ms = [] := List.length_eq_zero.mp (Nat.le_zero.mp h)
    subst hl
    simp [specFirstSeenDedupAux]
  | succ a ih =>
    intro ms acc h
    cases ms with
    | nil => simp [specFirstSeenDedupAux]
    | cons t rest =>
      have hlen : rest.length ≤ a := Nat.succ_le_succ_iff.mp (by simpa using h)
      simp only [List.foldl_cons]
      by_cases hc : (keepName s t && !(acc.contains t)) = true
      · rw [show dedupAppend s acc t = acc ++ [t] from by
          unfold dedupAppend; rw [if_pos hc]]
        rw [ih rest (acc ++ [t]) hlen]
        have hstep :
            List.filter (fun x => keepName s x && !(acc.contains x)) (t :: rest) =
              t :: List.filter (fun x => keepName s x && !(acc.contains x)) rest :=
          List.filter_cons_of_pos hc
        rw [hstep]
        simp only [specFirstSeenDedupAux]
        rw [List.append_assoc, List.singleton_append]
        have hfil :
            rest.filter (fun x => keepName s x && !((acc ++ [t]).contains x)) =
              (rest.filter (fun x => keepName s x && !(acc.contains x))).filter
                (fun x => x != t) := by
          rw [List.filter_filter]
          apply List.filter_congr
          intro x _
          by_cases hx : x = t
          · subst hx; simp
          · have hxt : (x != t) = true := by simp [hx]
            simp [hx, hxt, Bool.and_assoc, Bool.and_comm]
        rw [hfil]
      · rw [show dedupAppend s acc t = acc from by
          unfold dedupAppend; rw [if_neg hc]]
        rw [ih rest acc hlen]
        have hstep :
            List.filter (fun x => keepName s x && !(acc.contains x)) (t :: rest) =
              List.filter (fun x => keepName s x && !(acc.contains x)) rest :=
          List.filter_cons_of_neg hc
        rw [hstep]
        simp only [List.append_cancel_left_eq]
        apply specAux_congr
        · exact le_trans (List.length_filter_le _ _) hlen
        · exact le_trans (List.length_filter_le _ _) (Nat.le_succ_of_le hlen)

/-- For a composite suite, `get_suite_tests` is exactly the first-seen
de-duplication of the filtered referenced names. -/
theorem getSuiteTests_eq_spec (s content : String)
    (h : findRunMatches content ≠ []) :
    getSuiteTests s content =
      specFirstSeenDedup ((findRunMatches content).filter (keepName s)) := by
  unfold getSuiteTests
  rw [if_neg (by simpa using h)]
  rw [foldl_dedupAppend_eq s (findRunMatches content).length _ [] le_rfl]
  simp only [List.nil_append]
  have hfil : (findRunMatches content).filter
      (fun t => keepName s t && !(([] : List String).contains t)) =
      (findRunMatches content).filter (keepName s) := by
    apply List.filter_congr
    intro x _
    simp [List.contains]
  rw [hfil]
  apply specAux_congr
  · exact List.length_filter_le _ _
  · exact le_rfl

/-- C5.  Resolving a composite suite is deterministic in the definition
text; the resolved list is the first-seen-deduplicated sequence of the
referenced names; and it never contains the suite's own name nor the
sentinels `all` and `minimal`. -/
theorem suite_resolution_first_seen (s content : String)
    (h : findRunMatches content ≠ []) :
    getSuiteTests s content = getSuiteTests s content ∧
    getSuiteTests s content =
      specFirstSeenDedup ((findRunMatches content).filter (keepName s)) ∧
    s ∉ getSuiteTests s content ∧
    "all" ∉ getSuiteTests s content ∧
    "minimal" ∉ getSuiteTests s content := by
  have hspec := getSuiteTests_eq_spec s content h
  have hkeep : ∀ x ∈ getSuiteTests s content, keepName s x = true := by
    intro x hx
    rw [hspec] at hx
    exact (List.mem_filter.mp (mem_specAux _ _ x hx)).2
  refine ⟨rfl, hspec, ?_, ?_, ?_⟩
  · intro hmem
    have := hkeep s hmem
    simp [keepName] at this
  · intro hmem
    have := hkeep "all" hmem
    simp [keepName] at this
  · intro hmem
    have := hkeep "minimal" hmem
    simp [keepName] at this

/-- C5 witness: a concrete composite definition with a repeated reference,
a self-reference and a sentinel reference. -/
theorem suite_resolution_first_seen_witness :
    getSuiteTests "wk" "sh run-foo\nsh run-bar\nsh run-foo\nsh run-wk\nsh run-all" =
      getSuiteTests "wk" "sh run-foo\nsh run-bar\nsh run-foo\nsh run-wk\nsh run-all" ∧
    getSuiteTests "wk" "sh run-foo\nsh run-bar\nsh run-foo\nsh run-wk\nsh run-all" =
      specFirstSeenDedup
        ((findRunMatches "sh run-foo\nsh run-bar\nsh run-foo\nsh run-wk\nsh run-all").filter
          (keepName "wk")) ∧
    "wk" ∉ getSuiteTests "wk" "sh run-foo\nsh run-bar\nsh run-foo\nsh run-wk\nsh run-all" ∧
    "all" ∉ getSuiteTests "wk" "sh run-foo\nsh run-bar\nsh run-foo\nsh run-wk\nsh run-all" ∧
    "minimal" ∉ getSuiteTests "wk" "sh run-foo\nsh run-bar\nsh run-foo\nsh run-wk\nsh run-all" :=
  suite_resolution_first_seen "wk"
    "sh run-foo\nsh run-bar\nsh run-foo\nsh run-wk\nsh run-all" (by decide)

/-- A name that does not occur in the list has no last index. -/
theorem lastIdx_eq_none (name : String) :
    ∀ l : List String, name ∉ l → lastIdx l name = none := by
  intro l
  induction l with
  | nil => intro _; rfl
  | cons t rest ih =>
    intro h
    have h1 : name ≠ t := fun he => h (he ▸ List.mem_cons_self t rest)
    have h2 : name ∉ rest := fun hm => h (List.mem_cons_of_mem t hm)
    simp only [lastIdx, ih h2]
    rw [if_neg (fun he : t = name => h1 he.symm)]

/-- On a duplicate-free list, the dict lookup recovers each position. -/
theorem lastIdx_get :
    ∀ (l : List String), l.Nodup → ∀ (j : Fin l.length),
      lastIdx l (l.get j) = some j.val := by
  intro l
  induction l with
  | nil => intro _ j; exact absurd j.isLt (by simp)
  | cons t rest ih =>
    intro hnd j
    have h1 : t ∉ rest := (List.nodup_cons.mp hnd).1
    have h2 : rest.Nodup := (List.nodup_cons.mp hnd).2
    cases j using Fin.cases with
    | zero =>
      simp only [List.get_cons_zero]
      simp [lastIdx, lastIdx_eq_none t rest h1]
    | succ i =>
      simp only [Fin.val_succ]
      rw [show (t :: rest).get i.succ = rest.get i from by
        cases i with
        | mk iv hiv => exact List.get_cons_succ]
      simp only [lastIdx]
      rw [ih h2 i]

/-- On a duplicate-free list, `test_order.get` recovers each position. -/
theorem testOrderGet_get (l : List String) (hnd : l.Nodup) (j : Fin l.length) :
    testOrderGet l (l.get j) = j.val := by
  unfold testOrderGet
  rw [lastIdx_get l hnd j]
  rfl

/-- Indexing a list by `range` of its length recovers the list. -/
theorem filterMap_getElem_range :
    ∀ (l : List String), (List.range l.length).filterMap (fun i => l[i]?) = l := by
  intro l
  induction l with
  | nil => rfl
  | cons a t ih =>
    simp only [List.length_cons, List.range_succ_eq_map, List.filterMap_cons,
      List.getElem?_cons_zero, List.filterMap_map]
    congr 1
    have hc : ((fun i => (a :: t)[i]?) ∘ Nat.succ) = (fun i : Nat => t[i]?) := by
      funext i
      simp [Function.comp, List.getElem?_cons_succ]
    rw [hc]
    exact ih

/-- A list that is a permutation of a strictly key-sorted list and is itself
weakly key-sorted equals it: with distinct keys, the sorted arrangement is
unique, so any correct (in particular the source's stable) sort restores the
original order. -/
theorem sorted_perm_unique (key : TestResult → Nat) :
    ∀ (l0 l : List TestResult), l.Perm l0 →
      l0.Pairwise (fun a b => key a < key b) →
      l.Pairwise (fun a b => key a ≤ key b) → l = l0 := by
  intro l0
  induction l0 with
  | nil => intro l hp _ _; exact hp.eq_nil
  | cons a t ih =>
    intro l hp hs0 hs
    cases l with
    | nil => exact absurd hp.symm.eq_nil (by simp)
    | cons b u =>
      have hat : ∀ x ∈ t, key a < key x := (List.pairwise_cons.mp hs0).1
      have hbu : ∀ x ∈ u, key b ≤ key x := (List.pairwise_cons.mp hs).1
      have hb_mem : b ∈ a :: t := hp.subset (List.mem_cons_self b u)
      have ha_mem : a ∈ b :: u := hp.symm.subset (List.mem_cons_self a t)
      have hab : b = a := by
        rcases List.mem_cons.mp hb_mem with h | h
        · exact h
        · have h3 : key a < key b := hat b h
          rcases List.mem_cons.mp ha_mem with h4 | h4
          · exact h4.symm
          · have h5 : key b ≤ key a := hbu a h4
            omega
      subst hab
      have hut : u.Perm t := hp.cons_inv
      rw [ih u hut (List.pairwise_cons.mp hs0).2 (List.pairwise_cons.mp hs).2]

/-- The first-seen collection loop of `get_suite_tests` never duplicates. -/
theorem getSuiteTests_nodup (s content : String) :
    (getSuiteTests s content).Nodup := by
  unfold getSuiteTests
  split
  · simp
  · have hfold : ∀ (ms acc : List String), acc.Nodup →
        (ms.foldl (dedupAppend s) acc).Nodup := by
      intro ms
      induction ms with
      | nil => intro acc h; exact h
      | cons t rest ih =>
        intro acc h
        simp only [List.foldl_cons]
        apply ih
        unfold dedupAppend
        split
        · rename_i hc
          have hboth := (Bool.and_eq_true _ _) ▸ hc
          have hnc : acc.contains t = false := by simpa using hboth.2
          have ht : t ∉ acc := by
            intro hm
            rw [show acc.contains t = true from by simpa using hm] at hnc
            cases hnc
          exact ((List.perm_append_singleton t acc).symm).nodup
            (List.nodup_cons.mpr ⟨ht, h⟩)
        · exact h
    exact hfold _ [] (by simp)

/-- `list_tests` never duplicates (it sorts a de-duplicated set). -/
theorem listTests_nodup (files : List String) : (listTests files).Nodup := by
  unfold listTests
  exact ((List.perm_insertionSort _ _).symm).nodup (List.nodup_dedup _)

/-- The resolved and filtered test-name list of a suite run never
duplicates, whichever resolution path produced it. -/
theorem resolvedTests_nodup (suiteName : String) (files : List String)
    (content : String) (filt : Option String) :
    (applyFilter filt (resolveTests suiteName files content)).Nodup := by
  have hres : (resolveTests suiteName files content).Nodup := by
    unfold resolveTests
    split
    · exact listTests_nodup files
    · exact getSuiteTests_nodup _ _
  unfold applyFilter
  cases filt with
  | none => exact hres
  | some f => exact hres.filter _

/-- C2.  Over the same resolved test list, with per-test execution a
deterministic function of the test name (and no worker crashes), the
parallel scheduler — whatever its completion order — produces the same
`tests` sequence as the sequential scheduler, and that sequence follows the
resolved input order name-for-name.  Durations may differ; the `tests`
sequences, hence names and statuses, do not. -/
theorem parallel_refines_sequential (suiteName : String)
    (runTest : String → TestResult) (files : List String) (content : String)
    (filt : Option String) (dur dur2 : ℚ) (completionOrder : List Nat)
    (hname : ∀ nm, (runTest nm).name = nm)
    (hco : completionOrder.Perm
      (List.range
        (applyFilter filt (resolveTests suiteName files content)).length)) :
    (runSuiteParallel suiteName runTest files content filt dur completionOrder
        (fun _ => none)).tests =
      (runSuiteSequential suiteName runTest files content filt dur2).tests ∧
    (runSuiteSequential suiteName runTest files content filt
        dur2).tests.map TestResult.name =
      applyFilter filt (resolveTests suiteName files content) := by
  set tests := applyFilter filt (resolveTests suiteName files content)
    with htests
  have hnd : tests.Nodup := resolvedTests_nodup suiteName files content filt
  constructor
  · show List.insertionSort _
      ((completionOrder.filterMap (fun i => tests[i]?)).map
        (futureResult runTest (fun _ => none))) = tests.map runTest
    have hFr : futureResult runTest (fun _ => none) = runTest := by
      funext nm
      rfl
    rw [hFr]
    have hperm1 : (completionOrder.filterMap (fun i => tests[i]?)).Perm tests := by
      have hp := List.Perm.filterMap (fun i => tests[i]?) hco
      rw [filterMap_getElem_range tests] at hp
      exact hp
    have hperm2 : ((completionOrder.filterMap (fun i => tests[i]?)).map
        runTest).Perm (tests.map runTest) := hperm1.map runTest
    have hpair0 : tests.Pairwise
        (fun a b => testOrderGet tests a < testOrderGet tests b) := by
      rw [List.pairwise_iff_get]
      intro i j hij
      rw [testOrderGet_get tests hnd i, testOrderGet_get tests hnd j]
      exact hij
    have hpair : (tests.map runTest).Pairwise
        (fun a b => testOrderGet tests a.name < testOrderGet tests b.name) := by
      rw [List.pairwise_map]
      refine hpair0.imp ?_
      intro a b h
      rw [hname a, hname b]
      exact h
    haveI hto : IsTotal TestResult
        (fun a b => testOrderGet tests a.name ≤ testOrderGet tests b.name) :=
      ⟨fun a b => Nat.le_total _ _⟩
    haveI htr : IsTrans TestResult
        (fun a b => testOrderGet tests a.name ≤ testOrderGet tests b.name) :=
      ⟨fun a b c h1 h2 => Nat.le_trans h1 h2⟩
    have hsorted :
        (List.insertionSort
          (fun a b => testOrderGet tests a.name ≤ testOrderGet tests b.name)
          ((completionOrder.filterMap (fun i => tests[i]?)).map
            runTest)).Pairwise
          (fun a b => testOrderGet tests a.name ≤ testOrderGet tests b.name) :=
      List.sorted_insertionSort _ _
    have hperm3 :
        (List.insertionSort
          (fun a b => testOrderGet tests a.name ≤ testOrderGet tests b.name)
          ((completionOrder.filterMap (fun i => tests[i]?)).map
            runTest)).Perm (tests.map runTest) :=
      (List.perm_insertionSort _ _).trans hperm2
    exact sorted_perm_unique (fun r => testOrderGet tests r.name)
      (tests.map runTest) _ hperm3 hpair hsorted
  · show (tests.map runTest).map TestResult.name = tests
    rw [List.map_map]
    have : (TestResult.name ∘ runTest) = id := by
      funext nm
      exact hname nm
    rw [this, List.map_id]

/-- C2 witness: a concrete composite suite run in reverse completion
order. -/
theorem parallel_refines_sequential_witness :
    (runSuiteParallel "wk2" (fun nm => TestResult.mk nm "pass" 0 "" "")
        [] "sh run-bb\nsh run-aa" none 0 [1, 0] (fun _ => none)).tests =
      (runSuiteSequential "wk2" (fun nm => TestResult.mk nm "pass" 0 "" "")
        [] "sh run-bb\nsh run-aa" none 1).tests ∧
    (runSuiteSequential "wk2" (fun nm => TestResult.mk nm "pass" 0 "" "")
        [] "sh run-bb\nsh run-aa" none 1).tests.map TestResult.name =
      applyFilter none (resolveTests "wk2" [] "sh run-bb\nsh run-aa") :=
  parallel_refines_sequential "wk2" (fun nm => TestResult.mk nm "pass" 0 "" "")
    [] "sh run-bb\nsh run-aa" none 0 1 [1, 0] (fun _ => rfl) (by decide)

/-- C8.  For the sentinel `all`, the resolved list is exactly the sorted,
de-duplicated stems of on-disk `*.tests` artifacts, and the composite
definition text is never consulted: the result is the same whatever the
definition text says. -/
theorem sentinel_all_lists_disk (files : List String) (c c2 : String) :
    resolveTests "all" files c = resolveTests "all" files c2 ∧
    resolveTests "all" files c = listTests files ∧
    (resolveTests "all" files c).Pairwise (fun a b => a < b) ∧
    ∀ a, a ∈ resolveTests "all" files c ↔
      ∃ f ∈ files, f.endsWith ".tests" = true ∧ stemOfTests f = a := by
  have hall : ∀ s : String, resolveTests "all" files s = listTests files := by
    intro s
    unfold resolveTests
    rw [if_pos rfl]
  refine ⟨(hall c).trans (hall c2).symm, hall c, ?_, ?_⟩
  · rw [hall c]
    have hsorted : (listTests files).Pairwise (fun a b : String => a ≤ b) :=
      List.sorted_insertionSort _ _
    have hnd : (listTests files).Pairwise (fun a b : String => a ≠ b) :=
      listTests_nodup files
    refine (hsorted.and hnd).imp ?_
    intro a b h
    exact lt_of_le_of_ne h.1 h.2
  · intro a
    rw [hall c]
    unfold listTests
    rw [(List.perm_insertionSort _ _).mem_iff, List.mem_dedup, List.mem_map]
    constructor
    · rintro ⟨f, hf, rfl⟩
      exact ⟨f, List.mem_of_mem_filter hf, (List.mem_filter.mp hf).2, rfl⟩
    · rintro ⟨f, hf, hend, rfl⟩
      exact ⟨f, List.mem_filter.mpr ⟨hf, hend⟩, rfl⟩

/-- The decimal rendering of a natural number never contains the ESC
character. -/
theorem escChar_notMem_natToStrAux :
    ∀ (fuel n : Nat), escChar ∉ natToStrAux fuel n := by
  intro fuel
  induction fuel with
  | zero => intro n h; simp [natToStrAux] at h
  | succ a ih =>
    intro n h
    have hd : ∀ m : Nat, escChar ≠ digitChar m := by
      intro m
      unfold digitChar
      split <;> decide
    simp only [natToStrAux] at h
    rcases Decidable.em (n < 10) with hlt | hlt
    · rw [if_pos hlt] at h
      simp only [List.mem_singleton] at h
      exact hd n h
    · rw [if_neg hlt] at h
      rcases List.mem_append.mp h with h | h
      · exact ih _ h
      · simp only [List.mem_singleton] at h
        exact hd _ h

/-- `NoEsc` for rendered numbers. -/
theorem noEsc_natToStr (n : Nat) : escChar ∉ (natToStr n).data :=
  escChar_notMem_natToStrAux (n + 1) n

/-- C9 counterexample.  The claim says a non-interactive run renders
progress as append-only lines, with no carriage-return overwriting; but the
non-verbose progress line of `_run_suite_sequential` starts with `"\r"`
regardless of `Colors.enabled()`: the line emitted with colors disabled
(non-tty stderr) still carries the in-place-redraw carriage return. -/
theorem noninteractive_progress_contains_cr :
    '\r' ∈ (seqStatusLine false 2 5 1 0 "arith").data := by
  decide

/-- C9 (amended).  With output non-interactive (`Colors.enabled()` false) no
line carries an ANSI escape sequence — but the non-verbose progress line
still begins with a carriage return, i.e. progress is not append-only. -/
theorem noninteractive_no_ansi_escapes (i t p f : Nat) (nm : String)
    (hnm : NoEsc nm) :
    NoEsc (seqStatusLine false i t p f nm) ∧
    '\r' ∈ (seqStatusLine false i t p f nm).data := by
  have hnm' : escChar ∉ nm.data := hnm
  have hnm2 : '\x1b' ∉ nm.data := hnm
  have hnum : ∀ n : Nat, '\x1b' ∉ (natToStr n).data := fun n => noEsc_natToStr n
  have h1 : escChar ∉ ("\r" : String).data := by decide
  have h2 : escChar ∉ ("/" : String).data := by decide
  have h3 : escChar ∉ (" " : String).data := by decide
  have h4 : escChar ∉ ("Running" : String).data := by decide
  have h5 : escChar ∉ ("✓ " : String).data := by decide
  have h6 : escChar ∉ ("✗ " : String).data := by decide
  have hcr : '\r' ∈ ("\r" : String).data := by decide
  constructor
  · unfold NoEsc
    simp only [seqStatusLine, progressBar, colorize, padRight,
      if_neg (by decide : ¬(false = true)), if_pos rfl]
    by_cases hi : 2 ≤ i <;> by_cases hp : 0 < p <;> by_cases hf : 0 < f <;>
      simp [hi, hp, hf, String.data_append, List.mem_append, List.mem_replicate,
        hnum, hnm2, h1, h2, h3, h4, h5, h6, escChar]
  · simp only [seqStatusLine, progressBar, colorize, padRight,
      if_neg (by decide : ¬(false = true)), if_pos rfl]
    by_cases hi : 2 ≤ i <;> by_cases hp : 0 < p <;> by_cases hf : 0 < f <;>
      simp [hi, hp, hf, String.data_append, List.mem_append, hcr]

/-- C9 amended witness: a concrete escape-free test name. -/
theorem noninteractive_no_ansi_escapes_witness :
    NoEsc (seqStatusLine false 2 5 1 0 "arith") ∧
    '\r' ∈ (seqStatusLine false 2 5 1 0 "arith").data :=
  noninteractive_no_ansi_escapes 2 5 1 0 "arith"
    (by decide : escChar ∉ ("arith" : String).data)

/-- C10.  Every percentage computation is guarded by a positivity check on
the denominator: the modelled expressions never evaluate the division with a
zero denominator (never raise `ZeroDivisionError`), and a zero total yields
a 0.0% rate rather than an error. -/
theorem percentage_division_guarded (passed total current total2 : Nat) :
    (passRateExpr passed total).isOk = true ∧
    (progressFractionExpr current total2).isOk = true ∧
    passRateExpr passed 0 = Except.ok 0 ∧
    progressFractionExpr current 0 = Except.ok 0 := by
  refine ⟨?_, ?_, rfl, rfl⟩
  · unfold passRateExpr pyDivQ
    split
    · rename_i h
      rw [if_neg (Nat.cast_ne_zero.mpr (Nat.pos_iff_ne_zero.mp h) :
        ((total : ℚ) ≠ 0))]
      rfl
    · rfl
  · unfold progressFractionExpr pyDivQ
    split
    · rename_i h
      rw [if_neg (Nat.cast_ne_zero.mpr (Nat.pos_iff_ne_zero.mp h) :
        ((total2 : ℚ) ≠ 0))]
      rfl
    · rfl

end BashTestRunner
